import Mathlib

/-!
Verification of the `cec` extended-sequence-container library.

The development shallowly embeds the library's two layers:

* the compile-time type-rebinding resolver of
  `src/cec/detail/extended_sequence_container.hpp`, embedded as functions
  over an inductive representation `Ty` of C++ types (template families
  are identified by natural-number codes instead of names), and
* the value-level container operations of
  `src/cec/extended_sequence_container.hpp` and `src/cec/string.hpp`,
  embedded as functions over `List`, the sequence of elements a container
  holds in traversal order.
-/

namespace cec

/-- A C++ type, as the rebinding resolver sees it: either a non-template
type (`base`, identified by a code), or a template instantiation
`app f args` standing for `F<Args...>` where the template family `F` is
identified by the code `f`. -/
inductive Ty : Type where
  | base : Nat → Ty
  | app : Nat → List Ty → Ty

mutual

/-- Decidable equality on `Ty` (`std::is_same` on embedded C++ types). -/
def Ty.decEq : (a b : Ty) → Decidable (a = b)
  | .base a, .base b =>
    match Nat.decEq a b with
    | isTrue h => isTrue (by rw [h])
    | isFalse h => isFalse (by intro hh; injection hh; contradiction)
  | .base _, .app _ _ => isFalse (fun h => Ty.noConfusion h)
  | .app _ _, .base _ => isFalse (fun h => Ty.noConfusion h)
  | .app f as, .app g bs =>
    match Nat.decEq f g, Ty.decEqL as bs with
    | isTrue h1, isTrue h2 => isTrue (by rw [h1, h2])
    | isFalse h1, _ => isFalse (by intro h; injection h; contradiction)
    | _, isFalse h2 => isFalse (by intro h; injection h; contradiction)

/-- Decidable equality on argument lists of `Ty`. -/
def Ty.decEqL : (as bs : List Ty) → Decidable (as = bs)
  | [], [] => isTrue rfl
  | [], _ :: _ => isFalse (fun h => List.noConfusion h)
  | _ :: _, [] => isFalse (fun h => List.noConfusion h)
  | a :: as, b :: bs =>
    match Ty.decEq a b, Ty.decEqL as bs with
    | isTrue h1, isTrue h2 => isTrue (by rw [h1, h2])
    | isFalse h1, _ => isFalse (by intro h; injection h; contradiction)
    | _, isFalse h2 => isFalse (by intro h; injection h; contradiction)

end

instance : DecidableEq Ty := Ty.decEq

/-- The member typedefs of a C++ type that the resolver consults:
`other` is the declared member alias template `other<Rebind>` (the
family mapping), if any; `allocator_type` is the declared member
`allocator_type`, if any; `value_type` is the declared member
`value_type`, if any. -/
structure TyInfo where
  other : Option (Ty → Ty) := none
  allocator_type : Option Ty := none
  value_type : Option Ty := none

/-- An environment assigning to every C++ type its member typedefs.
This stands for the surrounding C++ program: which containers declare
a family mapping `other`, and what their `allocator_type` and
`value_type` members are. -/
structure Env where
  info : Ty → TyInfo

/-- `std::allocator_traits<Allocator>::rebind_alloc<Rebind>` in its
default form: an allocator `A<T, Args...>` is rebound to
`A<Rebind, Args...>`; a non-template allocator (or one with no
arguments) has no default rebinding and the instantiation is
ill-formed, modelled by `none`. -/
def rebind_alloc (a : Ty) (r : Ty) : Option Ty :=
  match a with
  | Ty.app f (_ :: rest) => some (Ty.app f (r :: rest))
  | _ => none

/-- `detail::rebind_alloc_if_matches<Head, Allocator, Rebind>`: if the
type of `Head` is the type of `Allocator`, rebind `Allocator` to the
`Rebind` type; otherwise the head passes through unchanged. -/
def rebind_alloc_if_matches (head : Ty) (alloc : Ty) (r : Ty) : Option Ty :=
  if head = alloc then rebind_alloc alloc r else some head

/-- The loop of `detail::rebind_sequence_container_helper`: walk the
`unchecked` template arguments, mapping each through
`rebind_alloc_if_matches` against the container's `allocator_type`, and
accumulate the results in `checked`.  The base case discards the first
checked argument and replaces it with the rebind target; when the
checked tuple is empty no specialization matches (`none`). -/
def rebind_sequence_container_helper (alloc : Ty) (r : Ty) :
    List Ty → List Ty → Option (List Ty)
  | [], [] => none
  | [], _old :: checked => some (r :: checked)
  | head :: unchecked, checked =>
    match rebind_alloc_if_matches head alloc r with
    | none => none
    | some h => rebind_sequence_container_helper alloc r unchecked (checked ++ [h])

/-- `detail::has_other<Container, Rebind>`: whether the container type
declares a member alias template `other`. -/
def has_other (env : Env) (t : Ty) : Bool :=
  ((env.info t).other).isSome

/-- `detail::rebind_prefer_other<Container, Rebind, has_other, Args...>`:
when the flag is `true`, use `Container<Args...>::other<Rebind>`
verbatim; when it is `false`, use the structural
`rebind_sequence_container_helper` starting from the full argument
list and an empty checked tuple. -/
def rebind_prefer_other (env : Env) (f : Nat) (args : List Ty)
    (flag : Bool) (r : Ty) : Option Ty :=
  if flag then
    match (env.info (Ty.app f args)).other with
    | some o => some (o r)
    | none => none
  else
    match (env.info (Ty.app f args)).allocator_type with
    | none => none
    | some alloc =>
      match rebind_sequence_container_helper alloc r args [] with
      | none => none
      | some newArgs => some (Ty.app f newArgs)

/-- `detail::rebind_sequence_container<Container>::other<Rebind>`: a
non-template container must declare `other` and it is used directly; a
template instantiation `Container<Args...>` goes through
`rebind_prefer_other` with the `has_other` flag computed for it. -/
def rebind_sequence_container (env : Env) (t : Ty) (r : Ty) : Option Ty :=
  match t with
  | Ty.base _ =>
    match (env.info t).other with
    | some o => some (o r)
    | none => none
  | Ty.app f args => rebind_prefer_other env f args (has_other env (Ty.app f args)) r

/-- `zip_t<Container>` of `extended_sequence_container<SequenceContainer>`:
the receiver rebound to `std::pair<SequenceContainer::value_type,
Container::value_type>`.  The `std::pair` family is given the fixed
code `pairCode`. -/
def pairCode : Nat := 1000

/-- The family code standing for `std::tuple`. -/
def tupleCode : Nat := 1001

/-- `zip_t<Container>`: rebind the receiver over the `std::pair` of the
two value types. -/
def zip_t (env : Env) (sc : Ty) (other : Ty) : Option Ty :=
  match (env.info sc).value_type, (env.info other).value_type with
  | some a, some b => rebind_sequence_container env sc (Ty.app pairCode [a, b])
  | _, _ => none

/-- `detail::pack_value_types<Containers...>::type`: the `std::tuple` of
the containers' value types. -/
def pack_value_types (env : Env) (ts : List Ty) : Option Ty :=
  match ts.mapM (fun t => (env.info t).value_type) with
  | some vs => some (Ty.app tupleCode vs)
  | none => none

/-- `zip_n_t<Containers...>`: rebind the receiver over the tuple of the
value types of the receiver and the other containers. -/
def zip_n_t (env : Env) (sc : Ty) (others : List Ty) : Option Ty :=
  match pack_value_types env (sc :: others) with
  | some tup => rebind_sequence_container env sc tup
  | none => none

/-!
Value-level operations.  A container value is the `List` of its elements
in traversal order; iterators are modelled by positions or by suffixes of
that list, and fallible iterator operations (dereferencing `end()`,
`std::next` beyond `end()`) return `Option`.
-/

/-- `extend`: `this->insert(this->end(), container.begin(), container.end())`
appends the elements of the argument at the end. -/
def extend (l c : List α) : List α := l ++ c

/-- `concat`, `const &` overload: copy this container, then `extend` the
copy with the argument. -/
def concat (l c : List α) : List α := extend l c

/-- `concat`, `&&` overload: `extend` this container in place and move
it out. -/
def concat_rvalue (l c : List α) : List α := extend l c

/-- `count_if`: `std::count_if(begin, end, p)`, starting from zero and
adding one for every element satisfying `p`; the result has the
container's signed `difference_type`. -/
def count_if (p : α → Bool) (l : List α) : Int :=
  l.foldl (fun acc x => bif p x then acc + 1 else acc) 0

/-- `erase_if`: `erase(std::remove_if(begin, end, p), end)` — the
remove–erase idiom keeps exactly the elements failing `p`, in their
original relative order. -/
def erase_if (p : α → Bool) : List α → List α
  | [] => []
  | x :: xs => bif p x then erase_if p xs else x :: erase_if p xs

/-- `erase_all`: `erase(std::remove(begin, end, value), end)` — keeps
exactly the elements not equal to `value`, in their original relative
order. -/
def erase_all [DecidableEq α] (v : α) : List α → List α
  | [] => []
  | x :: xs => if x = v then erase_all v xs else x :: erase_all v xs

/-- `filter`, `const &` overload: build a fresh container, emplacing at
its end every element satisfying `p`, in traversal order. -/
def filter (p : α → Bool) (l : List α) : List α :=
  l.foldl (fun temp item => bif p item then temp ++ [item] else temp) []

/-- `filter`, `&&` overload: `erase_if` with the negated predicate, in
place. -/
def filter_rvalue (p : α → Bool) (l : List α) : List α :=
  erase_if (fun v => !p v) l

/-- `map`, `const &` overload: build a fresh (rebound) container,
emplacing `f item` at its end for every element, in traversal order. -/
def map (f : α → β) (l : List α) : List β :=
  l.foldl (fun mapped item => mapped ++ [f item]) []

/-- `transform`: `std::transform` over the container's own range,
writing each `f item` back to the element's position. -/
def transform (f : α → α) : List α → List α
  | [] => []
  | x :: xs => f x :: transform f xs

/-- `map`, `&&` overload (type-preserving `f` only): `transform` in
place and move out. -/
def map_rvalue (f : α → α) (l : List α) : List α := transform f l

/-- `reduce` with seed: `std::accumulate(begin, end, init, f)`. -/
def reduce_init (f : β → α → β) (init : β) (l : List α) : β :=
  l.foldl f init

/-- `reduce` without seed:
`std::accumulate(std::next(this->begin()), this->end(), *this->begin(), f)`.
The code performs the reads `*this->begin()` and
`std::next(this->begin())` unconditionally; on an empty container both
are reads of invalid state (`begin() = end()`), which the embedding
surfaces as the `none` arm — the source has no check and no decided
error path. -/
def reduce (f : α → α → α) : List α → Option α
  | [] => none
  | x :: xs => some (xs.foldl f x)

/-- `detail::is_random_access` reduces a container's iterator category
to a compile-time flag; the categories of the C++ iterator hierarchy. -/
inductive IteratorCategory : Type where
  | inputIt | forwardIt | bidirectionalIt | randomAccessIt
deriving DecidableEq

/-- `detail::is_random_access<Container>`: the iterator category is
exactly `random_access_iterator_tag`. -/
def is_random_access (c : IteratorCategory) : Bool :=
  c = IteratorCategory.randomAccessIt

/-- The `std::sort(begin, end, comp)` call of `sort_helper(comp,
true_type)`.  `std::sort` is an external comparison sort specified only
up to its postcondition (a permutation of the input, sorted by `comp`);
it is modelled by insertion sort, which satisfies exactly that
contract. -/
def std_sort (comp : α → α → Bool) (l : List α) : List α :=
  List.insertionSort (fun a b => comp a b = true) l

/-- The `SequenceContainer::sort(comp)` call of `sort_helper(comp,
false_type)`.  The member sort of the link-based standard containers
(`std::list`, `std::forward_list`) is a merge sort specified up to the
same sorted-permutation postcondition; it is modelled by
`List.mergeSort`. -/
def member_sort (comp : α → α → Bool) (l : List α) : List α :=
  List.mergeSort l comp

/-- `sort_helper`: the `true_type` overload runs the range sort, the
`false_type` overload delegates to the container's member sort. -/
def sort_helper (comp : α → α → Bool) (l : List α) : Bool → List α
  | true => std_sort comp l
  | false => member_sort comp l

/-- `sort`: dispatch on `detail::is_random_access<SequenceContainer>`. -/
def sort (cat : IteratorCategory) (comp : α → α → Bool) (l : List α) :
    List α :=
  sort_helper comp l (is_random_access cat)

/-- `take_loop n l` copies the iterator range
`[begin, std::next(begin, n))` into a fresh container; the
`n + 1, []` arm is the walk running past `end()`. -/
def take_loop : Nat → List α → List α
  | 0, _ => []
  | _ + 1, [] => []
  | n + 1, x :: xs => x :: take_loop n xs

/-- `take`, `const &` overload: construct from
`{begin, std::next(begin, num)}`.  `std::next(begin, num)` is valid
only for `num ≤ size()`; beyond that the code walks past `end()`,
surfaced as `none`. -/
def take (num : Nat) (l : List α) : Option (List α) :=
  if num ≤ l.length then some (take_loop num l) else none

/-- `erase_from n l`: `erase(std::next(begin, n), end)` keeps the first
`n` elements in place. -/
def erase_from : Nat → List α → List α
  | 0, _ => []
  | _ + 1, [] => []
  | n + 1, x :: xs => x :: erase_from n xs

/-- `take`, `&&` overload: erase the suffix `[next(begin, num), end)` in
place, with the same validity bound on `std::next`. -/
def take_rvalue (num : Nat) (l : List α) : Option (List α) :=
  if num ≤ l.length then some (erase_from num l) else none

/-- The number of steps `std::find_if_not(begin, end, p)` takes from
`begin`: the length of the maximal satisfying run at the front. -/
def find_if_not_len (p : α → Bool) : List α → Nat
  | [] => 0
  | x :: xs => bif p x then find_if_not_len p xs + 1 else 0

/-- `take_while`, `const &` overload: construct from
`{begin, std::find_if_not(begin, end, p)}`. -/
def take_while (p : α → Bool) (l : List α) : List α :=
  take_loop (find_if_not_len p l) l

/-- `take_while`, `&&` overload: erase
`[std::find_if_not(begin, end, p), end)` in place. -/
def take_while_rvalue (p : α → Bool) (l : List α) : List α :=
  erase_from (find_if_not_len p l) l

/-- `zip`: advance two cursors synchronously while neither has reached
its container's end, emplacing the pair of the dereferenced values at
each step. -/
def zip : List α → List β → List (α × β)
  | x :: xs, y :: ys => (x, y) :: zip xs ys
  | _, _ => []

/-- `detail::container_size`: `size()` when available, else
`std::distance(begin, end)`; both equal the number of elements. -/
def container_size (l : List α) : Nat := l.length

/-- The counted loop of `zip_n` for one extra container: dereference
every cursor, pack the values, advance every cursor once, `n` times.
The fall-through arm is a dereference of a cursor already at its end,
which the loop bound is meant to exclude. -/
def zip_n_loop : Nat → List α → List β → List (α × β)
  | 0, _, _ => []
  | n + 1, x :: xs, y :: ys => (x, y) :: zip_n_loop n xs ys
  | _ + 1, _, _ => []

/-- `zip_n` with one extra container: compute each input's size once,
take the minimum, and run the counted cursor loop that many times. -/
def zip_n (a : List α) (b : List β) : List (α × β) :=
  zip_n_loop (min (container_size a) (container_size b)) a b

/-- The counted loop of `zip_n` for two extra containers. -/
def zip_n_loop3 : Nat → List α → List β → List γ → List (α × β × γ)
  | 0, _, _, _ => []
  | n + 1, x :: xs, y :: ys, z :: zs => (x, y, z) :: zip_n_loop3 n xs ys zs
  | _ + 1, _, _, _ => []

/-- `zip_n` with two extra containers. -/
def zip_n3 (a : List α) (b : List β) (c : List γ) : List (α × β × γ) :=
  zip_n_loop3 (min (container_size a) (min (container_size b) (container_size c))) a b c

/-!
The string adaptor of `src/cec/string.hpp`.  A string is the `List Char`
of its characters.  `std::regex` is an external engine; what `split`
consumes from it is the sequence of successive non-overlapping matches
that `std::sregex_iterator` yields, so `split` is parametrized by that
match sequence, and two concrete regexes are modelled: a single literal
character, and the default pattern `\S+` (maximal runs of
non-whitespace). -/

/-- `split`: iterate over the matches of the delimiter regex in this
string, emplacing each match string `iter->str()` at the end of a fresh
container. -/
def split (matcher : List Char → List (List Char)) (s : List Char) :
    List (List Char) :=
  (matcher s).foldl (fun container m => container ++ [m]) []

/-- The matches of the single-literal-character regex `c` in `s`: one
single-character match per occurrence of `c`, in order. -/
def char_matches (c : Char) (s : List Char) : List (List Char) :=
  (s.filter (fun d => d = c)).map (fun d => [d])

/-- The matches of the default delimiter regex `\S+` in `s`: the
maximal runs of non-whitespace characters, in order.  The first
argument accumulates the current run, reversed. -/
def ws_tokens (acc : List Char) : List Char → List (List Char)
  | [] => bif acc.isEmpty then [] else [acc.reverse]
  | c :: rest =>
    bif c.isWhitespace then
      bif acc.isEmpty then ws_tokens [] rest
      else acc.reverse :: ws_tokens [] rest
    else ws_tokens (c :: acc) rest

/-- The `\S+` match sequence of a string, as `std::sregex_iterator`
yields it for the default `split` pattern. -/
def default_matches (s : List Char) : List (List Char) :=
  ws_tokens [] s

/-!
Concrete types and environments used to instantiate the type-level
theorems: the family codes chosen are `0`/`1`/`2` for the scalar types
`int`/`double`/`float`, `100` for `std::allocator`, `10` for
`std::vector`, `11` for `std::list`, `20` for the test suite's
`MyTemplateList` and `21` for its non-template `MyList`. -/

/-- The C++ type `int`. -/
def intTy : Ty := Ty.base 0

/-- The C++ type `double`. -/
def doubleTy : Ty := Ty.base 1

/-- The C++ type `float`. -/
def floatTy : Ty := Ty.base 2

/-- `std::allocator<t>`. -/
def allocTy (t : Ty) : Ty := Ty.app 100 [t]

/-- `std::vector<t, std::allocator<t>>`. -/
def vectorTy (t : Ty) : Ty := Ty.app 10 [t, allocTy t]

/-- `std::list<t, std::allocator<t>>`. -/
def listTy (t : Ty) : Ty := Ty.app 11 [t, allocTy t]

/-- The member typedefs of the standard containers: `std::vector<V, A>`
and `std::list<V, A>` declare `value_type = V` and `allocator_type = A`
and no member alias `other`. -/
def envC : Env :=
  ⟨fun t =>
    match t with
    | Ty.app 10 [v, a] => { allocator_type := some a, value_type := some v }
    | Ty.app 11 [v, a] => { allocator_type := some a, value_type := some v }
    | _ => {}⟩

/-- The member typedefs of the test suite's `rebind_setup` types:
`MyTemplateList<V>` is a template that declares
`other<Rebind> = std::vector<Rebind>` (and inherits
`allocator_type = std::allocator<V>` from `std::list<V>`), and the
non-template `MyList` declares `other<Rebind> = std::list<Rebind>`. -/
def envA : Env :=
  ⟨fun t =>
    match t with
    | Ty.app 20 [v] =>
      { other := some (fun r => Ty.app 10 [r]),
        allocator_type := some (Ty.app 100 [v]) }
    | Ty.base 21 => { other := some (fun r => Ty.app 11 [r]) }
    | _ => {}⟩

/-!
Helper lemmas characterizing the loop-shaped operations by the
corresponding `List` functions.
-/

theorem filter_foldl (p : α → Bool) : ∀ (l acc : List α),
    l.foldl (fun temp item => bif p item then temp ++ [item] else temp) acc
      = acc ++ l.filter p
  | [], acc => by simp
  | x :: xs, acc => by
    cases h : p x <;>
      simp [h, filter_foldl p xs, List.filter_cons]

theorem filter_spec (p : α → Bool) (l : List α) : filter p l = l.filter p := by
  simp [filter, filter_foldl]

theorem map_foldl (f : α → β) : ∀ (l : List α) (acc : List β),
    l.foldl (fun mapped item => mapped ++ [f item]) acc = acc ++ l.map f
  | [], acc => by simp
  | x :: xs, acc => by simp [map_foldl f xs]

theorem map_spec (f : α → β) (l : List α) : map f l = l.map f := by
  simp [map, map_foldl]

theorem transform_spec (f : α → α) : ∀ l : List α, transform f l = l.map f
  | [] => rfl
  | x :: xs => by simp [transform, transform_spec f xs]

theorem erase_if_spec (p : α → Bool) :
    ∀ l : List α, erase_if p l = l.filter (fun x => !p x)
  | [] => rfl
  | x :: xs => by
    cases h : p x <;> simp [erase_if, h, erase_if_spec p xs, List.filter_cons]

theorem erase_all_spec [DecidableEq α] (v : α) :
    ∀ l : List α, erase_all v l = l.filter (fun x => !decide (x = v))
  | [] => rfl
  | x :: xs => by
    by_cases h : x = v <;> simp [erase_all, h, erase_all_spec v xs, List.filter_cons]

theorem take_loop_spec : ∀ (n : Nat) (l : List α), take_loop n l = l.take n
  | 0, _ => by simp [take_loop]
  | _ + 1, [] => by simp [take_loop]
  | n + 1, x :: xs => by simp [take_loop, take_loop_spec n xs]

theorem erase_from_spec : ∀ (n : Nat) (l : List α), erase_from n l = l.take n
  | 0, _ => by simp [erase_from]
  | _ + 1, [] => by simp [erase_from]
  | n + 1, x :: xs => by simp [erase_from, erase_from_spec n xs]

theorem take_while_spec (p : α → Bool) :
    ∀ l : List α, take_while p l = l.takeWhile p
  | [] => rfl
  | x :: xs => by
    have ih := take_while_spec p xs
    cases h : p x
    · simp [take_while, find_if_not_len, h, take_loop, List.takeWhile_cons]
    · simp only [take_while, find_if_not_len, h, cond_true, take_loop,
        List.takeWhile_cons, List.cons.injEq, true_and]
      simpa [take_while] using ih

theorem zip_spec : ∀ (a : List α) (b : List β),
    zip a b = List.zipWith Prod.mk a b
  | [], b => by cases b <;> rfl
  | _ :: _, [] => rfl
  | x :: xs, y :: ys => by simp [zip, zip_spec xs ys]

theorem zip_n_loop_spec : ∀ (n : Nat) (a : List α) (b : List β),
    zip_n_loop n a b = List.zipWith Prod.mk (a.take n) (b.take n)
  | 0, _, _ => by simp [zip_n_loop]
  | _ + 1, [], b => by simp [zip_n_loop]
  | _ + 1, _ :: _, [] => by simp [zip_n_loop]
  | n + 1, x :: xs, y :: ys => by
    simp [zip_n_loop, zip_n_loop_spec n xs ys]

theorem zip_n_spec (a : List α) (b : List β) :
    zip_n a b = List.zipWith Prod.mk a b := by
  rw [zip_n, container_size, container_size, zip_n_loop_spec,
    ← List.take_zipWith, ← List.length_zipWith Prod.mk a b, List.take_length]

theorem zip_n_loop3_spec : ∀ (n : Nat) (a : List α) (b : List β) (c : List γ),
    zip_n_loop3 n a b c
      = List.zipWith (fun x p => (x, p.1, p.2)) (a.take n)
          (List.zipWith Prod.mk (b.take n) (c.take n))
  | 0, _, _, _ => by simp [zip_n_loop3]
  | _ + 1, [], _, _ => by simp [zip_n_loop3]
  | _ + 1, _ :: _, [], _ => by simp [zip_n_loop3]
  | _ + 1, _ :: _, _ :: _, [] => by simp [zip_n_loop3]
  | n + 1, x :: xs, y :: ys, z :: zs => by
    simp [zip_n_loop3, zip_n_loop3_spec n xs ys zs]

theorem zip_n3_spec (a : List α) (b : List β) (c : List γ) :
    zip_n3 a b c
      = List.zipWith (fun x p => (x, p.1, p.2)) a (List.zipWith Prod.mk b c) := by
  rw [zip_n3, container_size, container_size, container_size, zip_n_loop3_spec,
    ← List.take_zipWith, ← List.take_zipWith]
  exact List.take_of_length_le (by simp)

/-- Claim C3: the seedless `reduce` overload evaluates
`std::accumulate(std::next(this->begin()), this->end(), *this->begin(), f)`
with no emptiness check.  On the empty container both `*this->begin()`
and `std::next(this->begin())` read invalid state (the `none` arm of
the embedding): there is no decided error outcome in the code, contrary
to the claim.  On a non-empty container the result is the left fold of
`f` seeded with the first element over the remaining elements, as the
claim states. -/
theorem claim_C3_reduce_unseeded (f : α → α → α) (x : α) (xs : List α) :
    reduce f ([] : List α) = none ∧ reduce f (x :: xs) = some (xs.foldl f x) :=
  ⟨rfl, rfl⟩

/-- Claim C4: `zip`, and `zip_n` at both arities, produce exactly
`min` (length of each input) output elements, the `i`-th output being
built from the `i`-th element of every input; the cursor loops run
exactly that many synchronous steps, so no cursor passes its
container's end. -/
theorem claim_C4_zip_truncates (a : List α) (b : List β) (d : List γ) :
    (zip a b).length = min (container_size a) (container_size b) ∧
    (zip_n a b).length = min (container_size a) (container_size b) ∧
    (zip_n3 a b d).length
      = min (container_size a) (min (container_size b) (container_size d)) ∧
    (∀ (i : Nat) (x : α) (y : β),
      a[i]? = some x → b[i]? = some y → (zip a b)[i]? = some (x, y)) ∧
    (∀ (i : Nat) (x : α) (y : β),
      a[i]? = some x → b[i]? = some y → (zip_n a b)[i]? = some (x, y)) ∧
    (∀ (i : Nat) (x : α) (y : β) (z : γ),
      a[i]? = some x → b[i]? = some y → d[i]? = some z →
        (zip_n3 a b d)[i]? = some (x, y, z)) := by
  refine ⟨?_, ?_, ?_, ?_, ?_, ?_⟩
  · rw [zip_spec]; simp [container_size]
  · rw [zip_n_spec]; simp [container_size]
  · rw [zip_n3_spec]; simp [container_size]
  · intro i x y hx hy
    rw [zip_spec, List.getElem?_zipWith, hx, hy]
  · intro i x y hx hy
    rw [zip_n_spec, List.getElem?_zipWith, hx, hy]
  · intro i x y z hx hy hz
    rw [zip_n3_spec, List.getElem?_zipWith, hx, List.getElem?_zipWith, hy, hz]

/-- Witness for claim C4 at the spec's example sizes: zipping a
3-element and a 5-element container yields exactly 3 pairs, built
positionally. -/
theorem claim_C4_witness :
    (zip [10, 20, 30] [1, 2, 3, 4, 5]).length = 3 ∧
    (zip_n [10, 20, 30] [1, 2, 3, 4, 5]).length = 3 ∧
    (zip [10, 20, 30] [1, 2, 3, 4, 5])[1]? = some (20, 2) := by
  have h := claim_C4_zip_truncates [10, 20, 30] [1, 2, 3, 4, 5] ([] : List Nat)
  refine ⟨?_, ?_, ?_⟩
  · simpa [container_size] using h.1
  · simpa [container_size] using h.2.1
  · exact h.2.2.2.1 1 20 2 (by decide) (by decide)

/-- Counterexample for claim C5: the rebound result container shapes of
`zip` and `zip_n` differ — for a `std::vector<int>` receiver and a
`std::list<float>` argument, `zip_t` is the receiver rebound over
`std::pair<int, float>` while `zip_n_t` is the receiver rebound over
`std::tuple<int, float>`, a different type. -/
theorem claim_C5_counterexample :
    zip_t envC (vectorTy intTy) (listTy floatTy)
        ≠ zip_n_t envC (vectorTy intTy) [listTy floatTy] ∧
    zip_t envC (vectorTy intTy) (listTy floatTy)
        = some (vectorTy (Ty.app pairCode [intTy, floatTy])) ∧
    zip_n_t envC (vectorTy intTy) [listTy floatTy]
        = some (vectorTy (Ty.app tupleCode [intTy, floatTy])) := by
  decide

/-- Claim C5 (amended): for every receiver and single other container,
`zip` and `zip_n` agree on element count and per-position component
values in the same order; but the rebound result container shapes
differ — `zip` produces the container of `std::pair`s and `zip_n` the
container of 2-element `std::tuple`s. -/
theorem claim_C5_zip_eq_zip_n (a : List α) (b : List β) :
    zip a b = zip_n a b ∧
    zip_t envC (vectorTy intTy) (listTy floatTy)
        = some (vectorTy (Ty.app pairCode [intTy, floatTy])) ∧
    zip_n_t envC (vectorTy intTy) [listTy floatTy]
        = some (vectorTy (Ty.app tupleCode [intTy, floatTy])) := by
  refine ⟨by rw [zip_spec, zip_n_spec], by decide, by decide⟩

theorem rebind_helper_loop_eq (g : Nat) (x : Ty) (xs : List Ty) (r : Ty) :
    ∀ (unchecked checked : List Ty),
      rebind_sequence_container_helper (Ty.app g (x :: xs)) r unchecked checked
        = match checked ++ unchecked.map (fun t =>
              if t = Ty.app g (x :: xs) then Ty.app g (r :: xs) else t) with
          | [] => none
          | _ :: rest => some (r :: rest)
  | [], checked => by
    cases checked <;> simp [rebind_sequence_container_helper]
  | head :: tail, checked => by
    by_cases h : head = Ty.app g (x :: xs)
    · simp [rebind_sequence_container_helper, rebind_alloc_if_matches, h,
        rebind_alloc,
        rebind_helper_loop_eq g x xs r tail (checked ++ [Ty.app g (r :: xs)])]
    · simp [rebind_sequence_container_helper, rebind_alloc_if_matches, h,
        rebind_helper_loop_eq g x xs r tail (checked ++ [head])]

/-- Claim C1: the resolver's priority order.  If the container type
declares a member mapping `other`, the resolver returns exactly
`other<Rebind>` — for a template container regardless of what the
structural tier would produce, and for a non-template container as the
only tier.  Structural substitution (`rebind_prefer_other` with the
flag `false`) is consulted exactly when no `other` is declared.  The
result is deterministic: the resolver is a function of the container
type and the target type. -/
theorem claim_C1_rebind_priority (env : Env) (f n : Nat) (args : List Ty)
    (r : Ty) :
    (∀ o, (env.info (Ty.app f args)).other = some o →
      rebind_sequence_container env (Ty.app f args) r = some (o r)) ∧
    ((env.info (Ty.app f args)).other = none →
      rebind_sequence_container env (Ty.app f args) r
        = rebind_prefer_other env f args false r) ∧
    (∀ o, (env.info (Ty.base n)).other = some o →
      rebind_sequence_container env (Ty.base n) r = some (o r)) ∧
    (∀ u v, rebind_sequence_container env (Ty.app f args) r = u →
      rebind_sequence_container env (Ty.app f args) r = v → u = v) := by
  refine ⟨?_, ?_, ?_, ?_⟩
  · intro o ho
    simp [rebind_sequence_container, rebind_prefer_other, has_other, ho]
  · intro ho
    simp [rebind_sequence_container, has_other, ho]
  · intro o ho
    simp [rebind_sequence_container, ho]
  · intro u v hu hv
    rw [← hu, ← hv]

/-- Witness for claim C1, on the test suite's `rebind_setup` types:
the template `MyTemplateList<int>` declares `other<Rebind> =
std::vector<Rebind>` and rebinding to `double` produces
`std::vector<double>`, even though the structural tier alone would have
produced `MyTemplateList<double>`; the non-template `MyList` rebinds
through its declared `other` to `std::list<double>`. -/
theorem claim_C1_witness :
    rebind_sequence_container envA (Ty.app 20 [intTy]) doubleTy
        = some (Ty.app 10 [doubleTy]) ∧
    rebind_prefer_other envA 20 [intTy] false doubleTy
        = some (Ty.app 20 [doubleTy]) ∧
    rebind_sequence_container envA (Ty.base 21) doubleTy
        = some (Ty.app 11 [doubleTy]) := by
  refine ⟨?_, by decide, ?_⟩
  · exact (claim_C1_rebind_priority envA 20 21 [intTy] doubleTy).1
      (fun rb => Ty.app 10 [rb]) rfl
  · exact (claim_C1_rebind_priority envA 20 21 [intTy] doubleTy).2.2.1
      (fun rb => Ty.app 11 [rb]) rfl

/-- Claim C2: the structural tier.  For a parametrized container with
no declared `other`, whose declared `allocator_type` is itself a
parametrized type, rebinding to `r` replaces the first template
argument by `r`, rebinds every remaining argument equal to the declared
`allocator_type` to that allocator parametrized over `r` (its other
arguments preserved), and passes every other argument through
unchanged. -/
theorem claim_C2_structural_rebind (env : Env) (f g : Nat) (a0 x : Ty)
    (rest xs : List Ty) (r : Ty)
    (hother : (env.info (Ty.app f (a0 :: rest))).other = none)
    (halloc : (env.info (Ty.app f (a0 :: rest))).allocator_type
      = some (Ty.app g (x :: xs))) :
    rebind_sequence_container env (Ty.app f (a0 :: rest)) r
      = some (Ty.app f (r :: rest.map (fun t =>
          if t = Ty.app g (x :: xs) then Ty.app g (r :: xs) else t))) := by
  have hflag : has_other env (Ty.app f (a0 :: rest)) = false := by
    simp [has_other, hother]
  simp only [rebind_sequence_container, hflag, rebind_prefer_other,
    Bool.false_eq_true, if_false, halloc]
  rw [rebind_helper_loop_eq]
  simp

/-- Witness for claim C2: rebinding
`std::vector<int, std::allocator<int>>` to `double` yields
`std::vector<double, std::allocator<double>>` — first argument
substituted, allocator argument rebound. -/
theorem claim_C2_witness :
    rebind_sequence_container envC (vectorTy intTy) doubleTy
        = some (vectorTy doubleTy) := by
  have h := claim_C2_structural_rebind envC 10 100 intTy intTy
    [allocTy intTy] [] doubleTy rfl rfl
  exact h

/-- Claim C6: every type-preserving operation with a
preserved-receiver (`const &`, copying) overload and a
disposable-receiver (`&&`, in-place) overload — `concat`, `filter`,
`take`, `take_while`, and type-preserving `map` — returns the same
element sequence through both overloads, for every container value and
arguments. -/
theorem claim_C6_overload_equivalence (p : α → Bool) (f : α → α) (n : Nat)
    (l other : List α) :
    concat l other = concat_rvalue l other ∧
    filter p l = filter_rvalue p l ∧
    take n l = take_rvalue n l ∧
    take_while p l = take_while_rvalue p l ∧
    map f l = map_rvalue f l := by
  refine ⟨rfl, ?_, ?_, ?_, ?_⟩
  · rw [filter_spec, filter_rvalue, erase_if_spec]
    simp
  · rw [take, take_rvalue, take_loop_spec, erase_from_spec]
  · rw [take_while, take_while_rvalue, take_loop_spec, erase_from_spec]
  · rw [map_spec, map_rvalue, transform_spec]

/-- Claim C7: `sort` dispatches on the traversal capability — exactly
the random-access iterator category selects the general range sort
(`std::sort`), every other category delegates to the container's
member `sort` — and under any transitive and total comparator both
strategies leave the container sorted by the comparator and a
permutation of the original elements, whatever their starting order. -/
theorem claim_C7_sort_dispatch (cat : IteratorCategory) (comp : α → α → Bool)
    (htrans : ∀ a b e, comp a b = true → comp b e = true → comp a e = true)
    (htotal : ∀ a b, comp a b = true ∨ comp b a = true) (l : List α) :
    List.Sorted (fun a b => comp a b = true) (sort cat comp l) ∧
    List.Perm (sort cat comp l) l ∧
    (is_random_access cat = true → sort cat comp l = std_sort comp l) ∧
    (is_random_access cat = false → sort cat comp l = member_sort comp l) := by
  haveI : IsTrans α (fun a b => comp a b = true) := ⟨htrans⟩
  haveI : IsTotal α (fun a b => comp a b = true) := ⟨htotal⟩
  have hstd : List.Sorted (fun a b => comp a b = true) (std_sort comp l) :=
    List.sorted_insertionSort (fun a b => comp a b = true) l
  have hstdp : List.Perm (std_sort comp l) l :=
    List.perm_insertionSort (fun a b => comp a b = true) l
  have hmem : List.Sorted (fun a b => comp a b = true) (member_sort comp l) :=
    @List.sorted_mergeSort α comp htrans
      (fun a b => by rcases htotal a b with h | h <;> simp [h]) l
  have hmemp : List.Perm (member_sort comp l) l := List.mergeSort_perm l comp
  refine ⟨?_, ?_, ?_, ?_⟩
  · rw [sort]
    cases is_random_access cat
    · exact hmem
    · exact hstd
  · rw [sort]
    cases is_random_access cat
    · exact hmemp
    · exact hstdp
  · intro h
    rw [sort, h]
    rfl
  · intro h
    rw [sort, h]
    rfl

/-- Witness for claim C7: sorting `[2, 0, 1]` over `Fin 3` with the
comparator `≤`, through the random-access strategy and through the
member-sort strategy, yields a sorted permutation both times. -/
theorem claim_C7_witness :
    (List.Sorted (fun a b : Fin 3 => decide (a ≤ b) = true)
      (sort IteratorCategory.randomAccessIt (fun a b => decide (a ≤ b)) [2, 0, 1]) ∧
     List.Perm (sort IteratorCategory.randomAccessIt
      (fun a b : Fin 3 => decide (a ≤ b)) [2, 0, 1]) [2, 0, 1]) ∧
    (List.Sorted (fun a b : Fin 3 => decide (a ≤ b) = true)
      (sort IteratorCategory.bidirectionalIt (fun a b => decide (a ≤ b)) [2, 0, 1]) ∧
     List.Perm (sort IteratorCategory.bidirectionalIt
      (fun a b : Fin 3 => decide (a ≤ b)) [2, 0, 1]) [2, 0, 1]) := by
  constructor
  · have h := claim_C7_sort_dispatch IteratorCategory.randomAccessIt
      (fun a b : Fin 3 => decide (a ≤ b)) (by decide) (by decide) [2, 0, 1]
    exact ⟨h.1, h.2.1⟩
  · have h := claim_C7_sort_dispatch IteratorCategory.bidirectionalIt
      (fun a b : Fin 3 => decide (a ≤ b)) (by decide) (by decide) [2, 0, 1]
    exact ⟨h.1, h.2.1⟩

theorem count_if_foldl (p : α → Bool) : ∀ (l : List α) (acc : Int),
    l.foldl (fun acc2 x => bif p x then acc2 + 1 else acc2) acc
      = acc + l.countP p
  | [], acc => by simp
  | x :: xs, acc => by
    cases h : p x
    · simp [h, count_if_foldl p xs, List.countP_cons]
    · simp [h, count_if_foldl p xs, List.countP_cons]
      omega

/-- Claim C8: for every container and unary predicate, `count_if p`
equals the number of elements of `filter p` applied to the same
container. -/
theorem claim_C8_count_if_filter (p : α → Bool) (l : List α) :
    count_if p l = ((filter p l).length : Int) := by
  rw [count_if, count_if_foldl, filter_spec, ← List.countP_eq_length_filter]
  simp

/-- Counterexample for claim C9: the regex consisting of the single
literal `x` has no match in the string `word`, and `split` then
yields the empty container, not the one-element container holding the
whole string. -/
theorem claim_C9_counterexample :
    char_matches 'x' ['w', 'o', 'r', 'd'] = [] ∧
    split (char_matches 'x') ['w', 'o', 'r', 'd'] ≠ [['w', 'o', 'r', 'd']] := by
  decide

theorem split_foldl (l acc : List (List Char)) :
    l.foldl (fun container m => container ++ [m]) acc = acc ++ l := by
  induction l generalizing acc with
  | nil => simp
  | cons m rest ih => simp [ih]

/-- Claim C9 (amended): `split` emits exactly the delimiter regex's
match sequence, so a regex with no match in the string yields the
empty container; `split` on `word` yields the one-element container
holding `word` under the default pattern `\S+`, because that pattern
matches the entire string. -/
theorem claim_C9_split_no_match (matcher : List Char → List (List Char))
    (s : List Char) (hnm : matcher s = []) :
    split matcher s = [] ∧
    split default_matches ['w', 'o', 'r', 'd'] = [['w', 'o', 'r', 'd']] := by
  constructor
  · rw [split, split_foldl, hnm]
    rfl
  · decide

/-- Witness for claim C9. -/
theorem claim_C9_witness :
    split (char_matches 'x') ['w', 'o', 'r', 'd'] = [] ∧
    split default_matches ['w', 'o', 'r', 'd'] = [['w', 'o', 'r', 'd']] :=
  claim_C9_split_no_match (char_matches 'x') ['w', 'o', 'r', 'd'] (by decide)

/-- Claim C10: every element-retaining, type-preserving operation keeps
the retained elements in their original relative order — `filter p`
keeps exactly the elements satisfying `p`, `erase_if p` exactly those
failing `p`, `erase_all v` exactly those not equal to `v`, all three as
subsequences of the original — and `take n` (within its validity
bound) and `take_while p` return exactly a prefix of the original
sequence. -/
theorem claim_C10_order_preserving [DecidableEq α] (p : α → Bool) (v : α)
    (n : Nat) (l : List α) :
    filter p l = l.filter p ∧ List.Sublist (filter p l) l ∧
    erase_if p l = l.filter (fun x => !p x) ∧
    List.Sublist (erase_if p l) l ∧
    erase_all v l = l.filter (fun x => !decide (x = v)) ∧
    List.Sublist (erase_all v l) l ∧
    (n ≤ l.length → take n l = some (l.take n)) ∧
    (∃ rest, l = l.take n ++ rest) ∧
    take_while p l = l.takeWhile p ∧
    (∃ rest, l = take_while p l ++ rest) := by
  refine ⟨filter_spec p l, ?_, erase_if_spec p l, ?_, erase_all_spec v l,
    ?_, ?_, ?_, take_while_spec p l, ?_⟩
  · rw [filter_spec]
    exact List.filter_sublist l
  · rw [erase_if_spec]
    exact List.filter_sublist l
  · rw [erase_all_spec]
    exact List.filter_sublist l
  · intro h
    rw [take, if_pos h, take_loop_spec]
  · exact ⟨l.drop n, (List.take_append_drop n l).symm⟩
  · refine ⟨l.dropWhile p, ?_⟩
    rw [take_while_spec]
    exact (List.takeWhile_append_dropWhile p l).symm

/-- Witness for claim C10: `take 2` of `[5, 6, 7]` is the prefix
`[5, 6]`, and `take_while (· < 7)` of `[5, 6, 7]` is the prefix
`[5, 6]`. -/
theorem claim_C10_witness :
    take 2 [5, 6, 7] = some [5, 6] ∧
    take_while (fun i => i < 7) [5, 6, 7] = [5, 6] := by
  have h := claim_C10_order_preserving (fun i => i < 7) 0 2 [5, 6, 7]
  exact ⟨h.2.2.2.2.2.2.1 (by decide), h.2.2.2.2.2.2.2.2.1⟩

end cec
